import Mathlib

set_option maxHeartbeats 1000000

/-!
Verification development for the `pdf_ocr_extraction` repository.

The repository has two variants of the same design:
* `src/Providers/base.py` — `RecognizedDocument`, the abstract `Provider`
  (path validation, folder batching, persistence) and
  `src/Providers/mistral_provider.py` — the Mistral adapter that walks the
  OCR response into a `RecognizedDocument`.
* `src/main.py` — a standalone variant with its own `RecognizedDocument`
  (adding `save_images`) and `MistralOCRProvider.process_document`.

The definitions below are a shallow embedding of that code: Python dicts
become association lists with Python-dict insertion semantics, the
filesystem becomes an explicit list of path/content writes, JSON values
become the `Json` inductive, `bytes` become `List Nat`, and Python's
decimal rendering and `base64.b64decode` are modelled concretely so that
everything evaluates inside the kernel.
-/

/-- JSON-like values, the shape of backend responses and of the
`metadata` field (Python `dict[str, Any]` passed through opaquely). -/
inductive Json where
  | null
  | bool (b : Bool)
  | num (n : Int)
  | str (s : String)
  | arr (elems : List Json)
  | obj (fields : List (String × Json))

/-- `RecognizedDocument` from `src/Providers/base.py` / `src/main.py`:
`text`, `image_bytes_by_name` (a Python dict, keys in insertion order)
and `metadata` (defaulting to an empty dict). -/
structure RecognizedDocument where
  text : String
  image_bytes_by_name : List (String × List Nat)
  metadata : Json

/-- Python dict assignment `d[k] = v`: replace in place if the key is
present, otherwise append at the end (insertion order preserved). -/
def dictInsert {α : Type} (k : String) (v : α) (d : List (String × α)) : List (String × α) :=
  if d.any (fun q => q.1 == k) then d.map (fun q => if q.1 == k then (k, v) else q)
  else d ++ [(k, v)]

/-- `'key' in d` / `d['key']` combined: first binding of a key in a
Python dict modelled as an association list. -/
def lookupKey (k : String) (d : List (String × Json)) : Option Json :=
  (d.find? (fun q => q.1 == k)).map (fun q => q.2)

/-- Project a `Json` string; backend text fields are strings. -/
def jsonStr : Json → String
  | Json.str s => s
  | _ => ""

/-- Project a `Json` number; backend row/col fields are integers. -/
def jsonInt : Json → Int
  | Json.num n => n
  | _ => 0

/-- Little-endian decimal digits of `n`, with explicit fuel so the
recursion is structural (fuel `n` suffices since `n / 10 < n`). -/
def natDigitsAux : Nat → Nat → List Nat
  | 0, _ => []
  | fuel + 1, n => if n = 0 then [] else n % 10 :: natDigitsAux fuel (n / 10)

/-- Value of a little-endian decimal digit list (used to prove that
`natRepr` is injective). -/
def ofDigits10 : List Nat → Nat
  | [] => 0
  | d :: ds => d + 10 * ofDigits10 ds

/-- Python's `str` on a non-negative integer: decimal notation, as used
by the f-strings building image names. -/
def natRepr (n : Nat) : String :=
  if n = 0 then "0" else String.mk (((natDigitsAux n n).map Nat.digitChar).reverse)

/-- Python's `str` on an integer (only negative values add a sign). -/
def intRepr (i : Int) : String :=
  if i < 0 then "-" ++ natRepr i.natAbs else natRepr i.toNat

/-- Index of a character in the standard base64 alphabet. -/
def b64Index (c : Char) : Option Nat :=
  let n := c.toNat
  if 65 ≤ n ∧ n ≤ 90 then some (n - 65)
  else if 97 ≤ n ∧ n ≤ 122 then some (n - 97)
  else if 48 ≤ n ∧ n ≤ 57 then some (n + 4)
  else if n = 43 then some 62
  else if n = 47 then some 63
  else none

/-- `true` iff the character belongs to the base64 alphabet. -/
def isB64Char (c : Char) : Bool := (b64Index c).isSome

/-- Decode groups of base64 digits (6 bits each) into bytes; a trailing
group of 2 digits yields 1 byte, of 3 digits yields 2 bytes. -/
def b64Group : List Nat → List Nat
  | a :: b :: c :: d :: rest =>
    (a * 4 + b / 16) :: ((b % 16) * 16 + c / 4) :: ((c % 4) * 64 + d) :: b64Group rest
  | [a, b] => [a * 4 + b / 16]
  | [a, b, c] => [a * 4 + b / 16, (b % 16) * 16 + c / 4]
  | _ => []

/-- Model of Python `base64.b64decode` on the characters of the input:
characters outside the alphabet are discarded, the padded length must be
a multiple of 4, and `none` models the `binascii.Error` exception. -/
def b64decode (cs : List Char) : Option (List Nat) :=
  let kept := cs.filter (fun c => isB64Char c || c == '=')
  if kept.length % 4 ≠ 0 then none
  else
    let digits := (kept.takeWhile (fun c => !(c == '='))).filterMap b64Index
    if digits.length % 4 = 1 then none else some (b64Group digits)

/-- The data-URI prefix stripped by the Mistral adapter
(`"data:image/jpeg;base64,"`). -/
def dataUriJpeg : List Char := "data:image/jpeg;base64,".data

/-- Python `s.split(",", 1)[1]`: everything after the first comma. -/
def afterComma : List Char → List Char
  | [] => []
  | c :: s => if c = ',' then s else afterComma s

/-- One image payload in `MistralOCR._parse_pdf_implementation`: strip
the jpeg data-URI prefix if present, then base64-decode. -/
def decodeImage (s : String) : Option (List Nat) :=
  let cs := s.data
  let payload := if dataUriJpeg.isPrefixOf cs then afterComma cs else cs
  b64decode payload

/-- An entry of a page's `images` array in the Mistral OCR response
(`model_dump` of the SDK object; `image_base64` is the inline payload). -/
structure OcrImage where
  image_base64 : String

/-- A page of the Mistral OCR response: the reported `index` (the SDK's
non-negative page index), its `markdown` text and its inline images. -/
structure OcrPage where
  index : Nat
  markdown : String
  images : List OcrImage

/-- The Mistral OCR response: an array of pages. -/
structure OcrResponse where
  pages : List OcrPage

/-- The generated image name
`f"page_{page_num + 1}_im_{i + 1}.jpeg"` for reported page index
`p` and position `i` of the image on that page (both 0-based inputs). -/
def imgName (p i : Nat) : String :=
  "page_" ++ natRepr (p + 1) ++ "_im_" ++ natRepr (i + 1) ++ ".jpeg"

/-- The inner image loop of `_parse_pdf_implementation` for one page:
decode each inline payload (a failed decode raises, modelled as `none`)
and pair it with its generated name; `i` is the `enumerate` counter. -/
def pagePairsAux (p : Nat) : Nat → List OcrImage → Option (List (String × List Nat))
  | _, [] => some []
  | i, img :: rest =>
    match decodeImage img.image_base64 with
    | none => none
    | some bs =>
      match pagePairsAux p (i + 1) rest with
      | none => none
      | some xs => some ((imgName p i, bs) :: xs)

/-- All name/bytes pairs generated by the page loop, in generation
order (pages in response-array order, images in array order). -/
def allPairsList : List OcrPage → Option (List (String × List Nat))
  | [] => some []
  | pg :: rest =>
    match pagePairsAux pg.index 0 pg.images, allPairsList rest with
    | some xs, some ys => some (xs ++ ys)
    | _, _ => none

/-- `MistralOCR._parse_pdf_implementation` (response walk only): `text`
is accumulated with `text += page.get('markdown')` over the response
array, the images dict is filled with `images[image_name] = image_bytes`
in generation order, and the constructor omits `metadata`, so it
defaults to an empty dict. A base64 decoding error aborts the call. -/
def mistralParse (resp : OcrResponse) : Except String RecognizedDocument :=
  match allPairsList resp.pages with
  | none => Except.error "binascii.Error: Invalid base64-encoded string"
  | some prs =>
    Except.ok
      ⟨resp.pages.foldl (fun t pg => t ++ pg.markdown) "",
       prs.foldl (fun d q => dictInsert q.1 q.2 d) [],
       Json.obj []⟩

/-- Decidability for the page ordering used in the spec-side
ascending-index reading of the response. -/
instance : DecidableRel (fun a b : OcrPage => a.index ≤ b.index) :=
  fun a b => Nat.decLe a.index b.index

/-- Modelled from the spec's words (for comparison with the code): the
concatenation of page markdown in ascending reported-index order. -/
def ascendingText (resp : OcrResponse) : String :=
  String.join ((List.insertionSort (fun a b => a.index ≤ b.index) resp.pages).map
    (fun pg => pg.markdown))

/-- Outcome of `Provider.parse_pdf` for one file as observed by the
batch loop: a document, a falsy result, or a raised exception. -/
inductive ParseOutcome where
  | ok (d : RecognizedDocument)
  | falsy
  | err (e : String)

/-- The `for pdf_file in pdf_files` loop of `Provider.process_folder`:
on success save and continue, on a falsy result log and continue, on an
exception log and `raise e` (aborting the loop). Returns the saved
(file, document) pairs in order, and the re-raised error if any. -/
def processLoop (parse : String → ParseOutcome) :
    List String → List (String × RecognizedDocument) × Option String
  | [] => ([], none)
  | f :: fs =>
    match parse f with
    | ParseOutcome.err e => ([], some e)
    | ParseOutcome.falsy => processLoop parse fs
    | ParseOutcome.ok r =>
      let rest := processLoop parse fs
      ((f, r) :: rest.1, rest.2)

/-- Result of a `process_folder` run. -/
inductive BatchResult where
  | invalidFolder (msg : String)
  | completed (saved : List (String × RecognizedDocument))
  | aborted (saved : List (String × RecognizedDocument)) (err : String)

/-- The `folder_path.glob("*.pdf")` match on one child name: the name
ends with `".pdf"`. -/
def endsWithPdf (s : String) : Bool := ".pdf".data.isSuffixOf s.data

/-- `Provider.process_folder`: reject a non-directory, glob `*.pdf`
among the immediate children, return successfully on an empty batch,
otherwise run the per-file loop (whose first raised error propagates). -/
def process_folder (folderExists folderIsDir : Bool) (children : List String)
    (parse : String → ParseOutcome) : BatchResult :=
  if !(folderExists && folderIsDir) then BatchResult.invalidFolder "Invalid folder path"
  else
    let pdf_files := children.filter endsWithPdf
    if pdf_files.isEmpty then BatchResult.completed []
    else
      match processLoop parse pdf_files with
      | (saved, none) => BatchResult.completed saved
      | (saved, some e) => BatchResult.aborted saved e

/-- The filesystem facts `Provider.validate_pdf_path` consults. -/
structure PathInfo where
  pathExists : Bool
  isFile : Bool

/-- The two exceptions `validate_pdf_path` can raise:
`FileNotFoundError` and `ValueError` ("not a file"). -/
inductive PathError where
  | notFound (msg : String)
  | notAFile (msg : String)

/-- `Provider.validate_pdf_path`: raise `FileNotFoundError` when the
path does not exist, `ValueError` when it is not a regular file,
otherwise return the path. -/
def validate_pdf_path (info : PathInfo) (p : String) : Except PathError String :=
  if !info.pathExists then Except.error (PathError.notFound ("File does not exist: " ++ p))
  else if !info.isFile then Except.error (PathError.notAFile ("Path is not a file: " ++ p))
  else Except.ok p

/-- Content of one written file: text (`"w"` mode), raw bytes
(`"wb"` mode), or the `json.dump` of a metadata value. -/
inductive FileData where
  | txt (s : String)
  | bin (b : List Nat)
  | json (j : Json)

/-- `Provider._save_pdf_data`: the writes it performs, in order — the
text as `document.txt`, each image under its (unsanitized) dict key,
and the metadata as `metadata.json`. Paths are component lists. -/
def save_pdf_data (result : RecognizedDocument) (doc_dir : List String) :
    List (List String × FileData) :=
  (doc_dir ++ ["document.txt"], FileData.txt result.text) ::
    result.image_bytes_by_name.map (fun q => (doc_dir ++ [q.1], FileData.bin q.2))
    ++ [(doc_dir ++ ["metadata.json"], FileData.json result.metadata)]

/-- Python `"mistralocr".replace("ocr", "")` specialised to the pattern
`"ocr"`: remove every (non-overlapping, left-to-right) occurrence. The
fuel is the list length, enough since each step consumes a character. -/
def replaceOcrAux : Nat → List Char → List Char
  | 0, s => s
  | _ + 1, [] => []
  | fuel + 1, c :: s =>
    if c = 'o' ∧ s.take 2 = ['c', 'r'] then replaceOcrAux fuel (s.drop 2)
    else c :: replaceOcrAux fuel s

/-- `self.__class__.__name__.lower().replace("ocr", "")` from
`Provider.__init__`: the provider directory name. -/
def provider_name (className : String) : String :=
  String.mk (replaceOcrAux className.data.length (className.data.map Char.toLower))

/-- `Provider.save_results`: create `<output_dir>/<provider_name>` and
`<.../pdf_name>` (idempotently) and delegate to `_save_pdf_data`. -/
def save_results (className : String) (result : RecognizedDocument) (pdf_name : String)
    (output_dir : List String) : List (List String × FileData) :=
  save_pdf_data result (output_dir ++ [provider_name className, pdf_name])

/-- The content found at a path after a list of writes: the last write
to that path wins (later `open(..., "wb")` truncates the earlier file). -/
def lastWrite {α : Type} (ws : List (List String × α)) (p : List String) : Option α :=
  (ws.reverse.find? (fun w => w.1 == p)).map (fun w => w.2)

/-- One character of `RecognizedDocument.save_images`'s sanitizer:
`c if c.isalnum() or c in '._- ' else '_'`. -/
def sanitizeChar (c : Char) : Char :=
  if c.isAlphanum || c == '.' || c == '_' || c == '-' || c == ' ' then c else '_'

/-- The `''.join(...)` sanitizer of `save_images` applied to a name. -/
def safe_name (s : String) : String := String.mk (s.data.map sanitizeChar)

/-- `RecognizedDocument.save_images` from `src/main.py`: for each image
write its bytes at the sanitized filename (in dict order) and record
`saved_paths[image_name] = file_path` keyed by the original name.
Returns (writes in order, saved_paths dict). -/
def save_images (doc : RecognizedDocument) (output_dir : List String) :
    List (List String × List Nat) × List (String × List String) :=
  doc.image_bytes_by_name.foldl
    (fun acc q =>
      (acc.1 ++ [(output_dir ++ [safe_name q.1], q.2)],
       dictInsert q.1 (output_dir ++ [safe_name q.1]) acc.2))
    ([], [])

/-- An HTTP response as observed by
`MistralOCRProvider.process_document`: status, parsed JSON body (a
dict) and the error text read on failure. -/
structure HttpResponse where
  status : Nat
  body : List (String × Json)
  errText : String

/-- `MistralOCRProvider._format_table`: `"TABLE:\n"` plus one
`"[row,col]: text\n"` line per cell; empty without a `cells` key. -/
def formatCell (c : Json) : String :=
  match c with
  | Json.obj cf =>
    "[" ++ intRepr (jsonInt ((lookupKey "row" cf).getD (Json.num 0))) ++ ","
      ++ intRepr (jsonInt ((lookupKey "col" cf).getD (Json.num 0))) ++ "]: "
      ++ jsonStr ((lookupKey "text" cf).getD (Json.str "")) ++ "\n"
  | _ => ""

/-- See `formatCell`. -/
def format_table (tb : List (String × Json)) : String :=
  match lookupKey "cells" tb with
  | some (Json.arr cells) => "TABLE:\n" ++ String.join (cells.map formatCell)
  | _ => ""

/-- The `block.get('type')` comparison key: the string value of a
block's `type` field (Python compares it with `==` against string
literals, so a missing or non-string `type` matches no branch). -/
def blockType (bf : List (String × Json)) : Option String :=
  match lookupKey "type" bf with
  | some (Json.str s) => some s
  | _ => none

/-- One block of a page in `_process_text_response`: headings get a
`"# "` prefix, paragraphs a newline, tables go through `format_table`. -/
def blockText (b : Json) : String :=
  match b with
  | Json.obj bf =>
    if blockType bf == some "heading" then
      "# " ++ jsonStr ((lookupKey "text" bf).getD (Json.str "")) ++ "\n"
    else if blockType bf == some "paragraph" then
      jsonStr ((lookupKey "text" bf).getD (Json.str "")) ++ "\n"
    else if blockType bf == some "table" then
      format_table bf ++ "\n"
    else ""
  | _ => ""

/-- One page of the fallback walk in `_process_text_response`: the
page's `text` plus a blank line, then its blocks. -/
def pageText (p : Json) : String :=
  match p with
  | Json.obj pf =>
    (match lookupKey "text" pf with
     | some j => jsonStr j ++ "\n\n"
     | none => "")
      ++ (match lookupKey "blocks" pf with
          | some (Json.arr bs) => String.join (bs.map blockText)
          | _ => "")
  | _ => ""

/-- Python `str.strip()` on the characters of a string (common
whitespace). -/
def isWS (c : Char) : Bool := c == ' ' || c == '\t' || c == '\n' || c == '\r'

/-- See `isWS`. -/
def trimChars (cs : List Char) : List Char :=
  (((cs.dropWhile isWS).reverse).dropWhile isWS).reverse

/-- `MistralOCRProvider._process_text_response`: return a top-level
`text` field verbatim if present, else combine pages (page text and
blocks) and strip the result. -/
def process_text_response (result : List (String × Json)) : String :=
  match lookupKey "text" result with
  | some j => jsonStr j
  | none =>
    let combined :=
      match lookupKey "pages" result with
      | some (Json.arr pages) => String.join (pages.map pageText)
      | _ => ""
    String.mk (trimChars combined.data)

/-- The `enumerate(result['images'])` loop of
`_process_image_response`: entries with a `base64` field are decoded
(a decode failure raises, modelled as `none`) and stored under their
`name` or a default `image_<i>.png`; entries without `base64` are
skipped; the counter advances for every entry. -/
def imgLoop : Nat → List (String × List Nat) → List Json → Option (List (String × List Nat))
  | _, acc, [] => some acc
  | i, acc, im :: rest =>
    match im with
    | Json.obj f =>
      (match lookupKey "base64" f with
       | some j =>
         (match b64decode (jsonStr j).data with
          | none => none
          | some bs =>
            let name :=
              match lookupKey "name" f with
              | some nj => jsonStr nj
              | none => "image_" ++ natRepr i ++ ".png"
            imgLoop (i + 1) (dictInsert name bs acc) rest)
       | none => imgLoop (i + 1) acc rest)
    | _ => imgLoop (i + 1) acc rest

/-- `MistralOCRProvider._process_image_response`: walk `result['images']`
if present; an absent key yields an empty dict. -/
def process_image_response (result : List (String × Json)) :
    Option (List (String × List Nat)) :=
  match lookupKey "images" result with
  | some (Json.arr imgs) => imgLoop 0 [] imgs
  | _ => some []

/-- `MistralOCRProvider._extract_metadata`: `result['metadata']` when
present, else an empty dict. -/
def extract_metadata (result : List (String × Json)) : Json :=
  (lookupKey "metadata" result).getD (Json.obj [])

/-- `MistralOCRProvider.process_document` after the upload: a non-200
status raises `Exception(f"Mistral OCR API error: ...")` (aborting the
document); otherwise the canonical document is assembled from the body. -/
def process_document (resp : HttpResponse) : Except String RecognizedDocument :=
  if resp.status ≠ 200 then
    Except.error ("Mistral OCR API error: " ++ natRepr resp.status ++ " - " ++ resp.errText)
  else
    match process_image_response resp.body with
    | none => Except.error "binascii.Error: Invalid base64-encoded string"
    | some imgs =>
      Except.ok ⟨process_text_response resp.body, imgs, extract_metadata resp.body⟩

/-! ### Helper lemmas about decimal rendering -/

theorem natDigitsAux_val : ∀ fuel n, n ≤ fuel → ofDigits10 (natDigitsAux fuel n) = n := by
  intro fuel
  induction fuel with
  | zero =>
    intro n hn
    interval_cases n
    simp [natDigitsAux, ofDigits10]
  | succ fuel ih =>
    intro n hn
    by_cases h0 : n = 0
    · simp [natDigitsAux, h0, ofDigits10]
    · have hdiv : n / 10 < n := Nat.div_lt_self (Nat.pos_of_ne_zero h0) (by norm_num)
      have : n / 10 ≤ fuel := by omega
      simp only [natDigitsAux, h0, if_false, ofDigits10, ih _ this]
      omega

theorem natDigitsAux_lt : ∀ fuel n d, d ∈ natDigitsAux fuel n → d < 10 := by
  intro fuel
  induction fuel with
  | zero => intro n d hd; simp [natDigitsAux] at hd
  | succ fuel ih =>
    intro n d hd
    by_cases h0 : n = 0
    · simp [natDigitsAux, h0] at hd
    · simp only [natDigitsAux, h0, if_false, List.mem_cons] at hd
      rcases hd with h | h
      · subst h; exact Nat.mod_lt _ (by norm_num)
      · exact ih _ _ h

theorem digitChar_inj10 : ∀ d, d < 10 → ∀ e, e < 10 → Nat.digitChar d = Nat.digitChar e → d = e := by
  decide

theorem digitChar_isDigit : ∀ d, d < 10 → (Nat.digitChar d).isDigit = true := by
  decide

theorem mapDigitChar_inj : ∀ l1 l2 : List Nat, (∀ d ∈ l1, d < 10) → (∀ d ∈ l2, d < 10) →
    l1.map Nat.digitChar = l2.map Nat.digitChar → l1 = l2 := by
  intro l1
  induction l1 with
  | nil => intro l2 _ _ h; cases l2 <;> simp_all
  | cons a l1 ih =>
    intro l2 h1 h2 h
    cases l2 with
    | nil => simp at h
    | cons b l2 =>
      simp only [List.map_cons, List.cons.injEq] at h
      have ha : a = b :=
        digitChar_inj10 a (h1 a (by simp)) b (h2 b (by simp)) h.1
      have := ih l2 (fun d hd => h1 d (by simp [hd])) (fun d hd => h2 d (by simp [hd])) h.2
      simp [ha, this]

theorem natRepr_inj : ∀ a b : Nat, natRepr a = natRepr b → a = b := by
  intro a b h
  by_cases ha : a = 0 <;> by_cases hb : b = 0
  · omega
  · exfalso
    simp only [natRepr, ha, if_true, hb, if_false] at h
    have hdata : ['0'] = ((natDigitsAux b b).map Nat.digitChar).reverse :=
      congrArg String.data h
    have hlist : (natDigitsAux b b).map Nat.digitChar = ['0'] := by
      have := congrArg List.reverse hdata
      simpa using this.symm
    rcases hx : natDigitsAux b b with _ | ⟨d, ds⟩
    · rw [hx] at hlist; simp at hlist
    · rw [hx] at hlist
      rcases ds with _ | ⟨d2, ds2⟩
      · simp only [List.map_cons, List.map_nil, List.cons.injEq] at hlist
        have hd10 : d < 10 := natDigitsAux_lt b b d (by rw [hx]; simp)
        have hd0 : d = 0 := digitChar_inj10 d hd10 0 (by norm_num) (by simpa using hlist.1)
        have hval := natDigitsAux_val b b (le_refl b)
        rw [hx, hd0] at hval
        simp [ofDigits10] at hval
        omega
      · simp at hlist
  · exfalso
    simp only [natRepr, hb, if_true, ha, if_false] at h
    have hdata : ((natDigitsAux a a).map Nat.digitChar).reverse = ['0'] :=
      congrArg String.data h
    have hlist : (natDigitsAux a a).map Nat.digitChar = ['0'] := by
      have := congrArg List.reverse hdata
      simpa using this
    rcases hx : natDigitsAux a a with _ | ⟨d, ds⟩
    · rw [hx] at hlist; simp at hlist
    · rw [hx] at hlist
      rcases ds with _ | ⟨d2, ds2⟩
      · simp only [List.map_cons, List.map_nil, List.cons.injEq] at hlist
        have hd10 : d < 10 := natDigitsAux_lt a a d (by rw [hx]; simp)
        have hd0 : d = 0 := digitChar_inj10 d hd10 0 (by norm_num) (by simpa using hlist.1)
        have hval := natDigitsAux_val a a (le_refl a)
        rw [hx, hd0] at hval
        simp [ofDigits10] at hval
        omega
      · simp at hlist
  · simp only [natRepr, ha, hb, if_false] at h
    have hdata := congrArg String.data h
    simp only at hdata
    have hrev := congrArg List.reverse hdata
    simp only [List.reverse_reverse] at hrev
    have := mapDigitChar_inj _ _ (fun d hd => natDigitsAux_lt a a d hd)
      (fun d hd => natDigitsAux_lt b b d hd) hrev
    have hva := natDigitsAux_val a a (le_refl a)
    have hvb := natDigitsAux_val b b (le_refl b)
    rw [this] at hva
    omega

theorem natRepr_digits : ∀ n c, c ∈ (natRepr n).data → c.isDigit = true := by
  intro n c hc
  by_cases h0 : n = 0
  · simp only [natRepr, h0, if_true] at hc
    have : c = '0' := by simpa using hc
    subst this; decide
  · simp only [natRepr, h0, if_false, List.mem_reverse, List.mem_map] at hc
    obtain ⟨d, hd, hdc⟩ := hc
    subst hdc
    exact digitChar_isDigit d (natDigitsAux_lt n n d hd)

/-! ### Helper lemmas about image names -/

theorem digit_prefix_eq : ∀ (a b x y : List Char),
    (∀ c ∈ a, c.isDigit = true) → (∀ c ∈ b, c.isDigit = true) →
    (∀ c, x.head? = some c → c.isDigit = false) →
    (∀ c, y.head? = some c → c.isDigit = false) →
    a ++ x = b ++ y → a = b ∧ x = y := by
  intro a
  induction a with
  | nil =>
    intro b x y _ hb hx _ h
    cases b with
    | nil => simpa using h
    | cons c b =>
      exfalso
      simp only [List.nil_append, List.cons_append] at h
      have hhead : x.head? = some c := by rw [h]; rfl
      have h1 := hx c hhead
      have h2 := hb c (by simp)
      rw [h1] at h2
      exact Bool.noConfusion h2
  | cons c a ih =>
    intro b x y ha hb hx hy h
    cases b with
    | nil =>
      exfalso
      simp only [List.cons_append, List.nil_append] at h
      have hhead : y.head? = some c := by rw [← h]; rfl
      have h1 := hy c hhead
      have h2 := ha c (by simp)
      rw [h1] at h2
      exact Bool.noConfusion h2
    | cons c2 b =>
      simp only [List.cons_append, List.cons.injEq] at h
      obtain ⟨hc, hrest⟩ := h
      have := ih b x y (fun d hd => ha d (by simp [hd])) (fun d hd => hb d (by simp [hd]))
        hx hy hrest
      exact ⟨by simp [hc, this.1], this.2⟩

theorem mk_data_eq (s : String) : String.mk s.data = s := by
  cases s
  rfl

theorem imgName_inj : ∀ p i q j : Nat, imgName p i = imgName q j → p = q ∧ i = j := by
  intro p i q j h
  have hdata := congrArg String.data h
  simp only [imgName, String.data_append, List.append_assoc] at hdata
  have hdata2 := List.append_cancel_left hdata
  have h1 := digit_prefix_eq (natRepr (p + 1)).data (natRepr (q + 1)).data _ _
    (natRepr_digits (p + 1)) (natRepr_digits (q + 1))
    (by intro c hc; have hc2 : c = '_' := by simpa using hc.symm
        rw [hc2]; decide)
    (by intro c hc; have hc2 : c = '_' := by simpa using hc.symm
        rw [hc2]; decide)
    hdata2
  have hp : p = q := by
    have := natRepr_inj (p + 1) (q + 1) (by
      have := congrArg String.mk h1.1
      rwa [mk_data_eq, mk_data_eq] at this)
    omega
  have h3 := List.append_cancel_left h1.2
  have h4 := digit_prefix_eq (natRepr (i + 1)).data (natRepr (j + 1)).data _ _
    (natRepr_digits (i + 1)) (natRepr_digits (j + 1))
    (by intro c hc; have hc2 : c = '.' := by simpa using hc.symm
        rw [hc2]; decide)
    (by intro c hc; have hc2 : c = '.' := by simpa using hc.symm
        rw [hc2]; decide)
    h3
  have hi : i = j := by
    have := natRepr_inj (i + 1) (j + 1) (by
      have := congrArg String.mk h4.1
      rwa [mk_data_eq, mk_data_eq] at this)
    omega
  exact ⟨hp, hi⟩

theorem map_self {α : Type} (f : α → α) : ∀ l : List α, (∀ c ∈ l, f c = c) → l.map f = l := by
  intro l
  induction l with
  | nil => intro _; rfl
  | cons a l ih =>
    intro h
    simp only [List.map_cons, h a (by simp), ih (fun c hc => h c (by simp [hc]))]

theorem sanitizeChar_digit : ∀ c : Char, c.isDigit = true → sanitizeChar c = c := by
  intro c h
  simp [sanitizeChar, Char.isAlphanum, h]

theorem safe_imgName (p i : Nat) : safe_name (imgName p i) = imgName p i := by
  have hmap : (imgName p i).data.map sanitizeChar = (imgName p i).data := by
    simp only [imgName, String.data_append, List.map_append]
    have h1 : (natRepr (p + 1)).data.map sanitizeChar = (natRepr (p + 1)).data :=
      map_self _ _ (fun c hc => sanitizeChar_digit c (natRepr_digits _ c hc))
    have h2 : (natRepr (i + 1)).data.map sanitizeChar = (natRepr (i + 1)).data :=
      map_self _ _ (fun c hc => sanitizeChar_digit c (natRepr_digits _ c hc))
    rw [h1, h2]
    rfl
  unfold safe_name
  rw [hmap, mk_data_eq]

/-! ### Helper lemmas about dict insertion and the image dict -/

theorem dictInsert_fresh {α : Type} (k : String) (v : α) (d : List (String × α))
    (h : ∀ q ∈ d, q.1 ≠ k) : dictInsert k v d = d ++ [(k, v)] := by
  unfold dictInsert
  rw [if_neg]
  simp only [List.any_eq_true, beq_iff_eq, not_exists, not_and]
  intro q hq
  exact h q hq

theorem foldl_dictInsert {α : Type} :
    ∀ (prs : List (String × α)) (acc : List (String × α)),
    (prs.map Prod.fst).Nodup → (∀ p ∈ prs, ∀ q ∈ acc, q.1 ≠ p.1) →
    prs.foldl (fun d q => dictInsert q.1 q.2 d) acc = acc ++ prs := by
  intro prs
  induction prs with
  | nil => intro acc _ _; simp
  | cons p prs ih =>
    intro acc hnd hfresh
    simp only [List.foldl_cons]
    rw [dictInsert_fresh p.1 p.2 acc (fun q hq => hfresh p (by simp) q hq)]
    have hnd2 : (p.1 :: prs.map Prod.fst).Nodup := by simpa using hnd
    rw [ih (acc ++ [(p.1, p.2)])
      (List.nodup_cons.mp hnd2).2
      (by
        intro r hr q hq
        rcases List.mem_append.mp hq with hq | hq
        · exact hfresh r (by simp [hr]) q hq
        · have hqe : q = (p.1, p.2) := by simpa using hq
          subst hqe
          have hne := (List.nodup_cons.mp hnd2).1
          intro hcontra
          exact hne (by
            simp only [List.mem_map]
            exact ⟨r, hr, hcontra.symm⟩))]
    simp

theorem pagePairsAux_keys (p : Nat) :
    ∀ (imgs : List OcrImage) (i : Nat) (l : List (String × List Nat)),
    pagePairsAux p i imgs = some l →
    l.map Prod.fst = (List.range imgs.length).map (fun k => imgName p (i + k)) := by
  intro imgs
  induction imgs with
  | nil =>
    intro i l h
    simp only [pagePairsAux] at h
    injection h with h
    subst h
    simp
  | cons img rest ih =>
    intro i l h
    simp only [pagePairsAux] at h
    rcases hdec : decodeImage img.image_base64 with _ | bs
    · rw [hdec] at h; exact absurd h (by simp)
    · rw [hdec] at h
      rcases hrec : pagePairsAux p (i + 1) rest with _ | xs
      · rw [hrec] at h; exact absurd h (by simp)
      · rw [hrec] at h
        injection h with h
        subst h
        have hkeys := ih (i + 1) xs hrec
        rw [List.map_cons, hkeys, List.length_cons, List.range_succ_eq_map,
          List.map_cons, List.map_map]
        have hhead : imgName p i = imgName p (i + 0) := by norm_num
        have htail : List.map (fun k => imgName p (i + 1 + k)) (List.range rest.length)
            = List.map ((fun k => imgName p (i + k)) ∘ Nat.succ) (List.range rest.length) := by
          apply List.map_congr_left
          intro a _
          simp only [Function.comp_apply, Nat.succ_eq_add_one]
          congr 1
          omega
        rw [← hhead, htail]

theorem pagePairsAux_bytes (p : Nat) :
    ∀ (imgs : List OcrImage) (i : Nat) (l : List (String × List Nat)),
    pagePairsAux p i imgs = some l →
    ∀ kv ∈ l, ∃ img ∈ imgs, decodeImage img.image_base64 = some kv.2 := by
  intro imgs
  induction imgs with
  | nil =>
    intro i l h
    simp only [pagePairsAux] at h
    injection h with h
    subst h
    simp
  | cons img rest ih =>
    intro i l h
    simp only [pagePairsAux] at h
    rcases hdec : decodeImage img.image_base64 with _ | bs
    · rw [hdec] at h; exact absurd h (by simp)
    · rw [hdec] at h
      rcases hrec : pagePairsAux p (i + 1) rest with _ | xs
      · rw [hrec] at h; exact absurd h (by simp)
      · rw [hrec] at h
        injection h with h
        subst h
        intro kv hkv
        rcases List.mem_cons.mp hkv with hkv | hkv
        · subst hkv
          exact ⟨img, by simp, hdec⟩
        · obtain ⟨img2, h2, h3⟩ := ih (i + 1) xs hrec kv hkv
          exact ⟨img2, by simp [h2], h3⟩

/-- The spec-level name list of one page: the generated names of its
images, in order. -/
def pageNames (pg : OcrPage) : List String :=
  (List.range pg.images.length).map (fun k => imgName pg.index k)

theorem pagePairsAux_keys_zero (pg : OcrPage) (l : List (String × List Nat))
    (h : pagePairsAux pg.index 0 pg.images = some l) :
    l.map Prod.fst = pageNames pg := by
  rw [pagePairsAux_keys pg.index pg.images 0 l h]
  unfold pageNames
  apply List.map_congr_left
  intro a _
  norm_num

theorem allPairsList_keys :
    ∀ (pages : List OcrPage) (l : List (String × List Nat)),
    allPairsList pages = some l →
    l.map Prod.fst = (pages.map pageNames).flatten := by
  intro pages
  induction pages with
  | nil =>
    intro l h
    simp only [allPairsList] at h
    injection h with h
    subst h
    simp
  | cons pg rest ih =>
    intro l h
    simp only [allPairsList] at h
    rcases h1 : pagePairsAux pg.index 0 pg.images with _ | xs
    · rw [h1] at h; exact absurd h (by simp)
    · rw [h1] at h
      rcases h2 : allPairsList rest with _ | ys
      · rw [h2] at h; exact absurd h (by simp)
      · rw [h2] at h
        injection h with h
        subst h
        simp only [List.map_append, List.map_cons, List.flatten_cons]
        rw [pagePairsAux_keys_zero pg xs h1, ih ys h2]

theorem allPairsList_bytes :
    ∀ (pages : List OcrPage) (l : List (String × List Nat)),
    allPairsList pages = some l →
    ∀ kv ∈ l, ∃ pg ∈ pages, ∃ img ∈ pg.images, decodeImage img.image_base64 = some kv.2 := by
  intro pages
  induction pages with
  | nil =>
    intro l h
    simp only [allPairsList] at h
    injection h with h
    subst h
    simp
  | cons pg rest ih =>
    intro l h
    simp only [allPairsList] at h
    rcases h1 : pagePairsAux pg.index 0 pg.images with _ | xs
    · rw [h1] at h; exact absurd h (by simp)
    · rw [h1] at h
      rcases h2 : allPairsList rest with _ | ys
      · rw [h2] at h; exact absurd h (by simp)
      · rw [h2] at h
        injection h with h
        subst h
        intro kv hkv
        rcases List.mem_append.mp hkv with hkv | hkv
        · obtain ⟨img, himg, hdec⟩ := pagePairsAux_bytes pg.index pg.images 0 xs h1 kv hkv
          exact ⟨pg, by simp, img, himg, hdec⟩
        · obtain ⟨pg2, hpg2, img, himg, hdec⟩ := ih ys h2 kv hkv
          exact ⟨pg2, by simp [hpg2], img, himg, hdec⟩

theorem pageNames_nodup (pg : OcrPage) : (pageNames pg).Nodup := by
  unfold pageNames
  apply List.Nodup.map
  · intro a b hab
    exact (imgName_inj pg.index a pg.index b hab).2
  · exact List.nodup_range _

theorem allNames_nodup (pages : List OcrPage)
    (hdist : (pages.map (fun pg => pg.index)).Nodup) :
    ((pages.map pageNames).flatten).Nodup := by
  rw [List.nodup_flatten]
  constructor
  · intro l hl
    obtain ⟨pg, _, hpg⟩ := List.mem_map.mp hl
    rw [← hpg]
    exact pageNames_nodup pg
  · have hpw : List.Pairwise (fun a b : OcrPage => a.index ≠ b.index) pages :=
      (List.pairwise_map.mp hdist)
    refine (List.pairwise_map.mpr ?_)
    apply hpw.imp
    intro a b hab
    intro x hxa hxb
    unfold pageNames at hxa hxb
    obtain ⟨ka, _, hka⟩ := List.mem_map.mp hxa
    obtain ⟨kb, _, hkb⟩ := List.mem_map.mp hxb
    rw [← hkb] at hka
    exact hab (imgName_inj a.index ka b.index kb hka).1

/-! ### Bridge lemmas: what a successful Mistral parse contains -/

theorem mistralParse_ok_parts (resp : OcrResponse) (d : RecognizedDocument)
    (h : mistralParse resp = Except.ok d) :
    d.text = resp.pages.foldl (fun t pg => t ++ pg.markdown) "" ∧
    d.metadata = Json.obj [] ∧
    ∃ prs, allPairsList resp.pages = some prs ∧
      d.image_bytes_by_name = prs.foldl (fun m q => dictInsert q.1 q.2 m) [] := by
  unfold mistralParse at h
  rcases hall : allPairsList resp.pages with _ | prs
  · rw [hall] at h; exact absurd h (by simp)
  · rw [hall] at h
    injection h with h
    subst h
    exact ⟨rfl, rfl, prs, rfl, rfl⟩

theorem mistralParse_images_eq_pairs (resp : OcrResponse) (prs : List (String × List Nat))
    (hdist : (resp.pages.map (fun pg => pg.index)).Nodup)
    (hall : allPairsList resp.pages = some prs) :
    prs.foldl (fun m q => dictInsert q.1 q.2 m) [] = prs := by
  have hkeys := allPairsList_keys resp.pages prs hall
  have hnd : (prs.map Prod.fst).Nodup := by
    rw [hkeys]
    exact allNames_nodup resp.pages hdist
  have := foldl_dictInsert prs [] hnd (by intro p _ q hq; simp at hq)
  simpa using this

theorem foldl_append_markdown (pages : List OcrPage) :
    pages.foldl (fun t pg => t ++ pg.markdown) "" =
      String.join (pages.map (fun pg => pg.markdown)) := by
  simp [String.join, List.foldl_map]

/-! ### Bridge lemmas: the batch loop -/

theorem processLoop_first_err (parse : String → ParseOutcome) (e : String) :
    ∀ (pre : List String) (f : String) (post : List String),
    parse f = ParseOutcome.err e →
    (∀ g ∈ pre, ∀ e2, parse g ≠ ParseOutcome.err e2) →
    processLoop parse (pre ++ f :: post) =
      (pre.filterMap (fun g =>
        match parse g with
        | ParseOutcome.ok r => some (g, r)
        | _ => none), some e) := by
  intro pre
  induction pre with
  | nil =>
    intro f post hf _
    simp [processLoop, hf]
  | cons g pre ih =>
    intro f post hf hpre
    rcases hg : parse g with d | _ | e2
    · simp only [List.cons_append, processLoop, hg, List.append_eq]
      rw [ih f post hf (fun g2 hg2 e2 => hpre g2 (by simp [hg2]) e2)]
      simp [List.filterMap_cons, hg]
    · simp only [List.cons_append, processLoop, hg, List.append_eq]
      rw [ih f post hf (fun g2 hg2 e2 => hpre g2 (by simp [hg2]) e2)]
      simp [List.filterMap_cons, hg]
    · exact absurd hg (hpre g (by simp) e2)

/-! ### Bridge lemma: save_images -/

theorem save_images_foldl :
    ∀ (l : List (String × List Nat)) (out : List String)
      (ws0 : List (List String × List Nat)) (sp0 : List (String × List String)),
    (l.map Prod.fst).Nodup → (∀ p ∈ l, ∀ q ∈ sp0, q.1 ≠ p.1) →
    l.foldl
      (fun acc q =>
        (acc.1 ++ [(out ++ [safe_name q.1], q.2)],
         dictInsert q.1 (out ++ [safe_name q.1]) acc.2))
      (ws0, sp0)
      = (ws0 ++ l.map (fun q => (out ++ [safe_name q.1], q.2)),
         sp0 ++ l.map (fun q => (q.1, out ++ [safe_name q.1]))) := by
  intro l
  induction l with
  | nil => intro out ws0 sp0 _ _; simp
  | cons p l ih =>
    intro out ws0 sp0 hnd hfresh
    have hnd2 : (p.1 :: l.map Prod.fst).Nodup := by simpa using hnd
    simp only [List.foldl_cons]
    rw [dictInsert_fresh p.1 (out ++ [safe_name p.1]) sp0
      (fun q hq => hfresh p (by simp) q hq)]
    rw [ih out (ws0 ++ [(out ++ [safe_name p.1], p.2)])
      (sp0 ++ [(p.1, out ++ [safe_name p.1])])
      (List.nodup_cons.mp hnd2).2
      (by
        intro r hr q hq
        rcases List.mem_append.mp hq with hq | hq
        · exact hfresh r (by simp [hr]) q hq
        · have hqe : q = (p.1, out ++ [safe_name p.1]) := by simpa using hq
          subst hqe
          have hne := (List.nodup_cons.mp hnd2).1
          intro hcontra
          exact hne (by
            simp only [List.mem_map]
            exact ⟨r, hr, hcontra.symm⟩))]
    simp

/-! ### Claims about the batch orchestrator (C1, C8) -/

/-- Claim C1, counterexample: a folder of two PDFs where the first
fails to parse and the second would succeed. `process_folder` aborts
with the first file's error and never saves the second file, even
though parsing it succeeds — so one file's failure does abort the
batch, contradicting the claim. -/
theorem c1_counterexample :
    process_folder true true ["a.pdf", "b.pdf"]
        (fun s => if s == "a.pdf" then ParseOutcome.err "boom"
          else ParseOutcome.ok ⟨"ok", [], Json.obj []⟩)
      = BatchResult.aborted [] "boom" ∧
    (fun s => if s == "a.pdf" then ParseOutcome.err "boom"
      else ParseOutcome.ok ⟨"ok", [], Json.obj []⟩) "b.pdf"
      = ParseOutcome.ok ⟨"ok", [], Json.obj []⟩ :=
  ⟨rfl, rfl⟩

/-- Claim C1 (amended): in `Provider.process_folder`, a per-file
recognition error is logged and then re-raised (`raise e`), so the
batch aborts at the first failing file: the documents saved are exactly
those of the earlier successfully parsed files, the error propagates as
the batch result, and the files after the failing one are never
attempted. -/
theorem c1_first_error_aborts_batch (pre : List String) (f : String) (post : List String)
    (parse : String → ParseOutcome) (e : String)
    (hpdf : ∀ g ∈ pre ++ f :: post, endsWithPdf g = true)
    (hf : parse f = ParseOutcome.err e)
    (hpre : ∀ g ∈ pre, ∀ e2, parse g ≠ ParseOutcome.err e2) :
    process_folder true true (pre ++ f :: post) parse =
      BatchResult.aborted
        (pre.filterMap (fun g =>
          match parse g with
          | ParseOutcome.ok r => some (g, r)
          | _ => none)) e := by
  unfold process_folder
  rw [List.filter_eq_self.mpr hpdf]
  have hne : (pre ++ f :: post).isEmpty = false := by
    cases pre <;> rfl
  simp only [Bool.and_self, Bool.not_true, Bool.false_eq_true, if_false, hne]
  rw [processLoop_first_err parse e pre f post hf hpre]

/-- Witness for C1: a three-file batch whose middle file fails; the
first file's document is saved, the error aborts the run. -/
theorem c1_first_error_aborts_batch_witness :
    process_folder true true (["a.pdf"] ++ "b.pdf" :: ["c.pdf"])
        (fun s => if s == "b.pdf" then ParseOutcome.err "invoke failed"
          else ParseOutcome.ok ⟨"T", [], Json.obj []⟩)
      = BatchResult.aborted
          ((["a.pdf"] : List String).filterMap (fun g =>
            match (fun s => if s == "b.pdf" then ParseOutcome.err "invoke failed"
              else ParseOutcome.ok ⟨"T", [], Json.obj []⟩) g with
            | ParseOutcome.ok r => some (g, r)
            | _ => none)) "invoke failed" := by
  apply c1_first_error_aborts_batch ["a.pdf"] "b.pdf" ["c.pdf"]
  · decide
  · rfl
  · intro g hg e2
    have hga : g = "a.pdf" := by simpa using hg
    subst hga
    have hbeq : ("a.pdf" == "b.pdf") = false := by decide
    rw [hbeq]
    simp

/-- Claim C8 (confirmed): over an existing directory none of whose
enumerated children matches `*.pdf`, `process_folder` reports the empty
batch and returns successfully: no documents are saved, no error is
raised. -/
theorem c8_empty_batch_succeeds (children : List String)
    (parse : String → ParseOutcome)
    (hnone : children.filter endsWithPdf = []) :
    process_folder true true children parse = BatchResult.completed [] := by
  unfold process_folder
  rw [hnone]
  rfl

/-- Witness for C8: a folder whose children match no `*.pdf`. -/
theorem c8_empty_batch_succeeds_witness :
    process_folder true true ["notes.txt", "img.png"]
        (fun _ => ParseOutcome.err "never called")
      = BatchResult.completed [] :=
  c8_empty_batch_succeeds ["notes.txt", "img.png"] (fun _ => ParseOutcome.err "never called")
    (by decide)

/-! ### Claim about path validation (C9) -/

/-- Claim C9 (confirmed): `Provider.validate_pdf_path` fails with
`FileNotFoundError` exactly when the path does not exist, fails with
the not-a-file `ValueError` exactly when the path exists but is not a
regular file, and otherwise returns the validated path. In the
embedding it is a pure function of the path's filesystem facts, with no
side effects. -/
theorem c9_validate_pdf_path_cases (info : PathInfo) (p : String) :
    ((∃ m, validate_pdf_path info p = Except.error (PathError.notFound m)) ↔
      info.pathExists = false) ∧
    ((∃ m, validate_pdf_path info p = Except.error (PathError.notAFile m)) ↔
      (info.pathExists = true ∧ info.isFile = false)) ∧
    (validate_pdf_path info p = Except.ok p ↔
      (info.pathExists = true ∧ info.isFile = true)) := by
  rcases info with ⟨he, hf⟩
  cases he <;> cases hf <;>
    simp [validate_pdf_path]

/-! ### Claims about the Mistral response walk (C2, C3) -/

/-- Claim C2, counterexample: a response whose pages arrive out of
index order. The adapter concatenates markdown in response-array order
(`"BA"`), not in ascending page-index order (`"AB"`), contradicting the
claim that `text` is assembled in ascending page-index order regardless
of the backend's array order. -/
theorem c2_counterexample :
    (mistralParse ⟨[⟨1, "B", []⟩, ⟨0, "A", []⟩]⟩).map (fun d => d.text) = Except.ok "BA" ∧
    ascendingText ⟨[⟨1, "B", []⟩, ⟨0, "A", []⟩]⟩ = "AB" ∧
    ("BA" : String) ≠ "AB" :=
  ⟨rfl, rfl, by decide⟩

/-- Claim C2 (amended): for every successfully parsed Mistral response,
the canonical document's `text` is the concatenation of the pages'
markdown in the order the pages appear in the response array; it
coincides with the ascending page-index concatenation exactly when the
backend already returns the array sorted by reported index. -/
theorem c2_text_is_array_order (resp : OcrResponse) (d : RecognizedDocument)
    (h : mistralParse resp = Except.ok d) :
    d.text = String.join (resp.pages.map (fun pg => pg.markdown)) ∧
    (List.Sorted (fun a b : OcrPage => a.index ≤ b.index) resp.pages →
      d.text = ascendingText resp) := by
  obtain ⟨ht, _, _⟩ := mistralParse_ok_parts resp d h
  constructor
  · rw [ht, foldl_append_markdown]
  · intro hs
    rw [ht, foldl_append_markdown]
    unfold ascendingText
    rw [hs.insertionSort_eq]

/-- Witness for C2: a two-page response already sorted by index. -/
theorem c2_text_is_array_order_witness :
    (⟨"AB", [], Json.obj []⟩ : RecognizedDocument).text
        = String.join (([⟨0, "A", []⟩, ⟨1, "B", []⟩] : List OcrPage).map (fun pg => pg.markdown)) ∧
    (⟨"AB", [], Json.obj []⟩ : RecognizedDocument).text
        = ascendingText ⟨[⟨0, "A", []⟩, ⟨1, "B", []⟩]⟩ := by
  have h := c2_text_is_array_order ⟨[⟨0, "A", []⟩, ⟨1, "B", []⟩]⟩ ⟨"AB", [], Json.obj []⟩ rfl
  exact ⟨h.1, h.2 (by decide)⟩

/-- Claim C3, counterexample: two pages that both report index 0, each
with one inline image. The generated names collide
(`page_1_im_1.jpeg`), so the dict keeps a single entry while the
response carries K = 2 inline images — the mapping does not have
exactly K entries. -/
theorem c3_counterexample :
    mistralParse ⟨[⟨0, "", [⟨"QUJD"⟩]⟩, ⟨0, "", [⟨"RA=="⟩]⟩]⟩
      = Except.ok ⟨"", [("page_1_im_1.jpeg", [68])], Json.obj []⟩ ∧
    (([⟨0, "", [⟨"QUJD"⟩]⟩, ⟨0, "", [⟨"RA=="⟩]⟩] : List OcrPage).map
      (fun pg => pg.images.length)).sum = 2 ∧
    (1 : Nat) ≠ 2 :=
  ⟨rfl, rfl, by decide⟩

/-- Claim C3 (amended): for every successfully parsed Mistral response
whose pages report pairwise-distinct indices, the images mapping has
exactly K entries for K inline images in the response, keyed in
generation order by the unique, filesystem-safe names
`page_<index+1>_im_<position+1>.jpeg` (1-based on both axes), each
value being the base64-decoded payload of one of the response's inline
images (decoded after stripping the jpeg data-URI prefix). -/
theorem c3_image_mapping (resp : OcrResponse) (d : RecognizedDocument)
    (hdist : (resp.pages.map (fun pg => pg.index)).Nodup)
    (h : mistralParse resp = Except.ok d) :
    d.image_bytes_by_name.map Prod.fst = (resp.pages.map pageNames).flatten ∧
    d.image_bytes_by_name.length = (resp.pages.map (fun pg => pg.images.length)).sum ∧
    (d.image_bytes_by_name.map Prod.fst).Nodup ∧
    (∀ kv ∈ d.image_bytes_by_name, safe_name kv.1 = kv.1) ∧
    (∀ kv ∈ d.image_bytes_by_name, ∃ pg ∈ resp.pages, ∃ img ∈ pg.images,
      decodeImage img.image_base64 = some kv.2) := by
  obtain ⟨_, _, prs, hall, himg⟩ := mistralParse_ok_parts resp d h
  have hpairs : d.image_bytes_by_name = prs := by
    rw [himg, mistralParse_images_eq_pairs resp prs hdist hall]
  have hkeys : d.image_bytes_by_name.map Prod.fst = (resp.pages.map pageNames).flatten := by
    rw [hpairs]
    exact allPairsList_keys resp.pages prs hall
  refine ⟨hkeys, ?_, ?_, ?_, ?_⟩
  · have hlen := congrArg List.length hkeys
    simp only [List.length_map, List.length_flatten, List.map_map] at hlen
    rw [hlen]
    congr 1
    apply List.map_congr_left
    intro pg _
    simp [pageNames, Function.comp]
  · rw [hkeys]
    exact allNames_nodup resp.pages hdist
  · intro kv hkv
    have hmem : kv.1 ∈ (resp.pages.map pageNames).flatten := by
      rw [← hkeys]
      exact List.mem_map.mpr ⟨kv, hkv, rfl⟩
    obtain ⟨l, hl, hx⟩ := List.mem_flatten.mp hmem
    obtain ⟨pg, _, hpg⟩ := List.mem_map.mp hl
    rw [← hpg] at hx
    obtain ⟨k, _, hk⟩ := List.mem_map.mp hx
    rw [← hk]
    exact safe_imgName pg.index k
  · rw [hpairs]
    exact allPairsList_bytes resp.pages prs hall

/-- Witness for C3: two pages with distinct indices and one inline
image each; the mapping has exactly two entries with the expected
names. -/
theorem c3_image_mapping_witness :
    (⟨"", [("page_1_im_1.jpeg", [65, 66, 67]), ("page_2_im_1.jpeg", [68])],
        Json.obj []⟩ : RecognizedDocument).image_bytes_by_name.map Prod.fst
      = (([⟨0, "", [⟨"QUJD"⟩]⟩, ⟨1, "", [⟨"RA=="⟩]⟩] : List OcrPage).map pageNames).flatten ∧
    (⟨"", [("page_1_im_1.jpeg", [65, 66, 67]), ("page_2_im_1.jpeg", [68])],
        Json.obj []⟩ : RecognizedDocument).image_bytes_by_name.length
      = (([⟨0, "", [⟨"QUJD"⟩]⟩, ⟨1, "", [⟨"RA=="⟩]⟩] : List OcrPage).map
          (fun pg => pg.images.length)).sum ∧
    ((⟨"", [("page_1_im_1.jpeg", [65, 66, 67]), ("page_2_im_1.jpeg", [68])],
        Json.obj []⟩ : RecognizedDocument).image_bytes_by_name.map Prod.fst).Nodup ∧
    (∀ kv ∈ (⟨"", [("page_1_im_1.jpeg", [65, 66, 67]), ("page_2_im_1.jpeg", [68])],
        Json.obj []⟩ : RecognizedDocument).image_bytes_by_name, safe_name kv.1 = kv.1) ∧
    (∀ kv ∈ (⟨"", [("page_1_im_1.jpeg", [65, 66, 67]), ("page_2_im_1.jpeg", [68])],
        Json.obj []⟩ : RecognizedDocument).image_bytes_by_name,
      ∃ pg ∈ ([⟨0, "", [⟨"QUJD"⟩]⟩, ⟨1, "", [⟨"RA=="⟩]⟩] : List OcrPage), ∃ img ∈ pg.images,
        decodeImage img.image_base64 = some kv.2) :=
  c3_image_mapping ⟨[⟨0, "", [⟨"QUJD"⟩]⟩, ⟨1, "", [⟨"RA=="⟩]⟩]⟩
    ⟨"", [("page_1_im_1.jpeg", [65, 66, 67]), ("page_2_im_1.jpeg", [68])], Json.obj []⟩
    (by decide) rfl

/-! ### Membership helpers for dict folds -/

theorem mem_dictInsert {α : Type} (k : String) (v : α) (d : List (String × α))
    (kv : String × α) (h : kv ∈ dictInsert k v d) : kv ∈ d ∨ kv = (k, v) := by
  unfold dictInsert at h
  by_cases hb : d.any (fun q => q.1 == k)
  · rw [if_pos hb] at h
    obtain ⟨q, hq, hqe⟩ := List.mem_map.mp h
    by_cases hqk : (q.1 == k) = true
    · rw [if_pos hqk] at hqe
      exact Or.inr hqe.symm
    · rw [if_neg hqk] at hqe
      exact Or.inl (hqe ▸ hq)
  · rw [if_neg hb] at h
    rcases List.mem_append.mp h with h | h
    · exact Or.inl h
    · exact Or.inr (by simpa using h)

theorem mem_foldl_dictInsert {α : Type} :
    ∀ (prs : List (String × α)) (acc : List (String × α)) (kv : String × α),
    kv ∈ prs.foldl (fun m q => dictInsert q.1 q.2 m) acc → kv ∈ acc ∨ kv ∈ prs := by
  intro prs
  induction prs with
  | nil => intro acc kv h; exact Or.inl (by simpa using h)
  | cons p prs ih =>
    intro acc kv h
    simp only [List.foldl_cons] at h
    rcases ih (dictInsert p.1 p.2 acc) kv h with h2 | h2
    · rcases mem_dictInsert p.1 p.2 acc kv h2 with h3 | h3
      · exact Or.inl h3
      · exact Or.inr (by simp [h3])
    · exact Or.inr (by simp [h2])

theorem save_images_writes_mem :
    ∀ (l : List (String × List Nat)) (out : List String)
      (ws0 : List (List String × List Nat)) (sp0 : List (String × List String))
      (w : List String × List Nat),
    w ∈ (l.foldl
      (fun acc q =>
        (acc.1 ++ [(out ++ [safe_name q.1], q.2)],
         dictInsert q.1 (out ++ [safe_name q.1]) acc.2))
      (ws0, sp0)).1 →
    w ∈ ws0 ∨ ∃ q ∈ l, w = (out ++ [safe_name q.1], q.2) := by
  intro l
  induction l with
  | nil => intro out ws0 sp0 w h; exact Or.inl (by simpa using h)
  | cons p l ih =>
    intro out ws0 sp0 w h
    simp only [List.foldl_cons] at h
    rcases ih out (ws0 ++ [(out ++ [safe_name p.1], p.2)])
        (dictInsert p.1 (out ++ [safe_name p.1]) sp0) w h with h2 | h2
    · rcases List.mem_append.mp h2 with h3 | h3
      · exact Or.inl h3
      · exact Or.inr ⟨p, by simp, by simpa using h3⟩
    · obtain ⟨q, hq, hqe⟩ := h2
      exact Or.inr ⟨q, by simp [hq], hqe⟩

theorem append_singleton_beq_false (base : List String) (x y : String) (h : x ≠ y) :
    ((base ++ [x]) == (base ++ [y])) = false := by
  apply beq_eq_false_iff_ne.mpr
  intro hc
  exact h (by simpa using List.append_cancel_left hc)

theorem lastWrite_cons_of_none {α : Type} (w : List String × α) (ws : List (List String × α))
    (p : List String) (h : lastWrite ws p = none) :
    lastWrite (w :: ws) p = if (w.1 == p) = true then some w.2 else none := by
  unfold lastWrite at *
  rw [List.reverse_cons, List.find?_append]
  rcases hf : ws.reverse.find? (fun q => q.1 == p) with _ | v
  · simp only [hf, Option.none_or, List.find?]
    by_cases hb : (w.1 == p) = true
    · simp [hb]
    · simp [hb]
  · rw [hf] at h
    simp at h

theorem lastWrite_cons_of_some {α : Type} (w : List String × α) (ws : List (List String × α))
    (p : List String) (v : α) (h : lastWrite ws p = some v) :
    lastWrite (w :: ws) p = some v := by
  unfold lastWrite at *
  rw [List.reverse_cons, List.find?_append]
  rcases hf : ws.reverse.find? (fun q => q.1 == p) with _ | u
  · rw [hf] at h; simp at h
  · rw [hf] at h
    simp only [Option.map] at h
    simp [hf, h]

/-! ### Claim about persistence (C4) -/

/-- Claim C4 (confirmed): `save_results` for a document with text `T`,
images `{n1: b1, n2: b2}` and metadata `M`, under stem `S`, writes into
`<outputRoot>/<providerName>/<S>/` — where the provider name is the
class name lower-cased with the "ocr" word removed (`"mistral"` for
`MistralOCR`) — a `document.txt` whose content is exactly `T`, files
`n1` and `n2` holding exactly `b1` and `b2`, and a `metadata.json`
holding exactly the metadata value `M` (so deserializing returns `M`).
The `lastWrite` facts state the final content at each path. -/
theorem c4_save_results_layout (T n1 n2 : String) (b1 b2 : List Nat) (M : Json)
    (S : String) (out : List String)
    (h12 : n1 ≠ n2) (h1d : n1 ≠ "document.txt") (h1m : n1 ≠ "metadata.json")
    (h2d : n2 ≠ "document.txt") (h2m : n2 ≠ "metadata.json") :
    provider_name "MistralOCR" = "mistral" ∧
    save_results "MistralOCR" ⟨T, [(n1, b1), (n2, b2)], M⟩ S out =
      [(out ++ ["mistral", S] ++ ["document.txt"], FileData.txt T),
       (out ++ ["mistral", S] ++ [n1], FileData.bin b1),
       (out ++ ["mistral", S] ++ [n2], FileData.bin b2),
       (out ++ ["mistral", S] ++ ["metadata.json"], FileData.json M)] ∧
    lastWrite (save_results "MistralOCR" ⟨T, [(n1, b1), (n2, b2)], M⟩ S out)
      (out ++ ["mistral", S] ++ ["document.txt"]) = some (FileData.txt T) ∧
    lastWrite (save_results "MistralOCR" ⟨T, [(n1, b1), (n2, b2)], M⟩ S out)
      (out ++ ["mistral", S] ++ [n1]) = some (FileData.bin b1) ∧
    lastWrite (save_results "MistralOCR" ⟨T, [(n1, b1), (n2, b2)], M⟩ S out)
      (out ++ ["mistral", S] ++ [n2]) = some (FileData.bin b2) ∧
    lastWrite (save_results "MistralOCR" ⟨T, [(n1, b1), (n2, b2)], M⟩ S out)
      (out ++ ["mistral", S] ++ ["metadata.json"]) = some (FileData.json M) := by
  have hw : save_results "MistralOCR" ⟨T, [(n1, b1), (n2, b2)], M⟩ S out =
      [(out ++ ["mistral", S] ++ ["document.txt"], FileData.txt T),
       (out ++ ["mistral", S] ++ [n1], FileData.bin b1),
       (out ++ ["mistral", S] ++ [n2], FileData.bin b2),
       (out ++ ["mistral", S] ++ ["metadata.json"], FileData.json M)] := rfl
  refine ⟨rfl, hw, ?_, ?_, ?_, ?_⟩ <;> rw [hw]
  · have h4 : lastWrite ([] : List (List String × FileData))
        (out ++ ["mistral", S] ++ ["document.txt"]) = none := rfl
    have h3 := lastWrite_cons_of_none (out ++ ["mistral", S] ++ ["metadata.json"],
      FileData.json M) [] _ h4
    rw [append_singleton_beq_false (out ++ ["mistral", S]) "metadata.json" "document.txt"
      (by decide)] at h3
    simp only [Bool.false_eq_true, if_false] at h3
    have h2 := lastWrite_cons_of_none (out ++ ["mistral", S] ++ [n2], FileData.bin b2) _ _ h3
    rw [append_singleton_beq_false (out ++ ["mistral", S]) n2 "document.txt" h2d] at h2
    simp only [Bool.false_eq_true, if_false] at h2
    have h1 := lastWrite_cons_of_none (out ++ ["mistral", S] ++ [n1], FileData.bin b1) _ _ h2
    rw [append_singleton_beq_false (out ++ ["mistral", S]) n1 "document.txt" h1d] at h1
    simp only [Bool.false_eq_true, if_false] at h1
    have h0 := lastWrite_cons_of_none (out ++ ["mistral", S] ++ ["document.txt"],
      FileData.txt T) _ _ h1
    simp only [beq_self_eq_true, if_true] at h0
    exact h0
  · have h4 : lastWrite ([] : List (List String × FileData))
        (out ++ ["mistral", S] ++ [n1]) = none := rfl
    have h3 := lastWrite_cons_of_none (out ++ ["mistral", S] ++ ["metadata.json"],
      FileData.json M) [] _ h4
    rw [append_singleton_beq_false (out ++ ["mistral", S]) "metadata.json" n1
      (fun hc => h1m hc.symm)] at h3
    simp only [Bool.false_eq_true, if_false] at h3
    have h2 := lastWrite_cons_of_none (out ++ ["mistral", S] ++ [n2], FileData.bin b2) _ _ h3
    rw [append_singleton_beq_false (out ++ ["mistral", S]) n2 n1 (fun hc => h12 hc.symm)] at h2
    simp only [Bool.false_eq_true, if_false] at h2
    have h1 := lastWrite_cons_of_none (out ++ ["mistral", S] ++ [n1], FileData.bin b1) _ _ h2
    simp only [beq_self_eq_true, if_true] at h1
    exact lastWrite_cons_of_some _ _ _ _ h1
  · have h4 : lastWrite ([] : List (List String × FileData))
        (out ++ ["mistral", S] ++ [n2]) = none := rfl
    have h3 := lastWrite_cons_of_none (out ++ ["mistral", S] ++ ["metadata.json"],
      FileData.json M) [] _ h4
    rw [append_singleton_beq_false (out ++ ["mistral", S]) "metadata.json" n2
      (fun hc => h2m hc.symm)] at h3
    simp only [Bool.false_eq_true, if_false] at h3
    have h2 := lastWrite_cons_of_none (out ++ ["mistral", S] ++ [n2], FileData.bin b2) _ _ h3
    simp only [beq_self_eq_true, if_true] at h2
    exact lastWrite_cons_of_some _ _ _ _ (lastWrite_cons_of_some _ _ _ _ h2)
  · have h4 : lastWrite ([] : List (List String × FileData))
        (out ++ ["mistral", S] ++ ["metadata.json"]) = none := rfl
    have h3 := lastWrite_cons_of_none (out ++ ["mistral", S] ++ ["metadata.json"],
      FileData.json M) [] _ h4
    simp only [beq_self_eq_true, if_true] at h3
    exact lastWrite_cons_of_some _ _ _ _
      (lastWrite_cons_of_some _ _ _ _ (lastWrite_cons_of_some _ _ _ _ h3))

/-- Witness for C4: a concrete document persisted under
`output/mistral/doc1/`. -/
theorem c4_save_results_layout_witness :
    provider_name "MistralOCR" = "mistral" ∧
    save_results "MistralOCR"
        ⟨"hello", [("page_1_im_1.jpeg", [1]), ("page_1_im_2.jpeg", [2, 3])],
          Json.obj [("k", Json.str "v")]⟩ "doc1" ["output"] =
      [(["output"] ++ ["mistral", "doc1"] ++ ["document.txt"], FileData.txt "hello"),
       (["output"] ++ ["mistral", "doc1"] ++ ["page_1_im_1.jpeg"], FileData.bin [1]),
       (["output"] ++ ["mistral", "doc1"] ++ ["page_1_im_2.jpeg"], FileData.bin [2, 3]),
       (["output"] ++ ["mistral", "doc1"] ++ ["metadata.json"],
         FileData.json (Json.obj [("k", Json.str "v")]))] ∧
    lastWrite (save_results "MistralOCR"
        ⟨"hello", [("page_1_im_1.jpeg", [1]), ("page_1_im_2.jpeg", [2, 3])],
          Json.obj [("k", Json.str "v")]⟩ "doc1" ["output"])
      (["output"] ++ ["mistral", "doc1"] ++ ["document.txt"]) = some (FileData.txt "hello") ∧
    lastWrite (save_results "MistralOCR"
        ⟨"hello", [("page_1_im_1.jpeg", [1]), ("page_1_im_2.jpeg", [2, 3])],
          Json.obj [("k", Json.str "v")]⟩ "doc1" ["output"])
      (["output"] ++ ["mistral", "doc1"] ++ ["page_1_im_1.jpeg"]) = some (FileData.bin [1]) ∧
    lastWrite (save_results "MistralOCR"
        ⟨"hello", [("page_1_im_1.jpeg", [1]), ("page_1_im_2.jpeg", [2, 3])],
          Json.obj [("k", Json.str "v")]⟩ "doc1" ["output"])
      (["output"] ++ ["mistral", "doc1"] ++ ["page_1_im_2.jpeg"]) = some (FileData.bin [2, 3]) ∧
    lastWrite (save_results "MistralOCR"
        ⟨"hello", [("page_1_im_1.jpeg", [1]), ("page_1_im_2.jpeg", [2, 3])],
          Json.obj [("k", Json.str "v")]⟩ "doc1" ["output"])
      (["output"] ++ ["mistral", "doc1"] ++ ["metadata.json"])
        = some (FileData.json (Json.obj [("k", Json.str "v")])) :=
  c4_save_results_layout "hello" "page_1_im_1.jpeg" "page_1_im_2.jpeg" [1] [2, 3]
    (Json.obj [("k", Json.str "v")]) "doc1" ["output"]
    (by decide) (by decide) (by decide) (by decide) (by decide)

/-! ### Claim about key sanitization (C5) -/

/-- Claim C5, counterexample: the base Persistence Writer
(`_save_pdf_data`) writes each image under its raw map key with no
sanitization: a document carrying the unsafe key `"a/b"` is written at
the path component `"a/b"` as-is, although the sanitizer would produce
`"a_b"` — so adapter-supplied names are not sanitized before becoming
the filename used by the writer. -/
theorem c5_counterexample :
    save_pdf_data ⟨"t", [("a/b", [1])], Json.obj []⟩ ["outdir"]
      = [(["outdir"] ++ ["document.txt"], FileData.txt "t"),
         (["outdir"] ++ ["a/b"], FileData.bin [1]),
         (["outdir"] ++ ["metadata.json"], FileData.json (Json.obj []))] ∧
    safe_name "a/b" ≠ "a/b" :=
  ⟨rfl, by decide⟩

/-- Claim C5 (amended): every key the Mistral adapter generates is
filesystem-safe by construction (it is a fixed point of the
`save_images` sanitizer), and `save_images` in `src/main.py` sanitizes
every name before using it as a filename; the base Persistence Writer
itself, however, writes each image under its raw map key without
sanitizing. -/
theorem c5_key_safety (resp : OcrResponse) (d : RecognizedDocument)
    (h : mistralParse resp = Except.ok d) :
    (∀ kv ∈ d.image_bytes_by_name, safe_name kv.1 = kv.1) ∧
    (∀ doc : RecognizedDocument, ∀ out : List String,
      ∀ w ∈ (save_images doc out).1, ∃ q ∈ doc.image_bytes_by_name,
        w = (out ++ [safe_name q.1], q.2)) ∧
    (∀ doc : RecognizedDocument, ∀ dir : List String, ∀ q ∈ doc.image_bytes_by_name,
      (dir ++ [q.1], FileData.bin q.2) ∈ save_pdf_data doc dir) := by
  refine ⟨?_, ?_, ?_⟩
  · intro kv hkv
    obtain ⟨_, _, prs, hall, himg⟩ := mistralParse_ok_parts resp d h
    rw [himg] at hkv
    rcases mem_foldl_dictInsert prs [] kv hkv with h2 | h2
    · simp at h2
    · have hmem : kv.1 ∈ (resp.pages.map pageNames).flatten := by
        rw [← allPairsList_keys resp.pages prs hall]
        exact List.mem_map.mpr ⟨kv, h2, rfl⟩
      obtain ⟨l, hl, hx⟩ := List.mem_flatten.mp hmem
      obtain ⟨pg, _, hpg⟩ := List.mem_map.mp hl
      rw [← hpg] at hx
      obtain ⟨k, _, hk⟩ := List.mem_map.mp hx
      rw [← hk]
      exact safe_imgName pg.index k
  · intro doc out w hw
    unfold save_images at hw
    rcases save_images_writes_mem doc.image_bytes_by_name out [] [] w hw with h2 | h2
    · simp at h2
    · exact h2
  · intro doc dir q hq
    unfold save_pdf_data
    refine List.mem_cons.mpr (Or.inr ?_)
    refine List.mem_append.mpr (Or.inl ?_)
    exact List.mem_map.mpr ⟨q, hq, rfl⟩

/-- Witness for C5: a one-page, one-image response; its generated key
is a sanitizer fixed point, `save_images` writes it sanitized, and the
base writer writes it raw. -/
theorem c5_key_safety_witness :
    (∀ kv ∈ (⟨"x", [("page_1_im_1.jpeg", [65])], Json.obj []⟩ :
        RecognizedDocument).image_bytes_by_name, safe_name kv.1 = kv.1) ∧
    (∀ w ∈ (save_images ⟨"", [("a/b", [7])], Json.obj []⟩ ["imgs"]).1,
      ∃ q ∈ (⟨"", [("a/b", [7])], Json.obj []⟩ :
          RecognizedDocument).image_bytes_by_name,
        w = (["imgs"] ++ [safe_name q.1], q.2)) ∧
    ((["docdir"] ++ ["a/b"], FileData.bin [7])
      ∈ save_pdf_data ⟨"", [("a/b", [7])], Json.obj []⟩ ["docdir"]) := by
  have h := c5_key_safety ⟨[⟨0, "x", [⟨"QQ=="⟩]⟩]⟩
    ⟨"x", [("page_1_im_1.jpeg", [65])], Json.obj []⟩ rfl
  exact ⟨h.1, h.2.1 ⟨"", [("a/b", [7])], Json.obj []⟩ ["imgs"],
    h.2.2 ⟨"", [("a/b", [7])], Json.obj []⟩ ["docdir"] ("a/b", [7]) (by simp)⟩

/-! ### Claim about metadata (C6) -/

/-- Claim C6, counterexample: a 200-status response whose body has both
a `metadata` entry and other keys. The canonical document's metadata is
the `metadata` sub-mapping, not the full raw backend response — so
"metadata is the full raw backend response passed through" fails (and
the `Providers` adapter always attaches an empty mapping, never the
raw response). -/
theorem c6_counterexample :
    process_document ⟨200,
        [("metadata", Json.obj [("a", Json.num 1)]), ("text", Json.str "T")], ""⟩
      = Except.ok ⟨"T", [], Json.obj [("a", Json.num 1)]⟩ ∧
    Json.obj [("a", Json.num 1)]
      ≠ Json.obj [("metadata", Json.obj [("a", Json.num 1)]), ("text", Json.str "T")] := by
  refine ⟨rfl, ?_⟩
  intro hc
  injection hc with hc2
  simp at hc2

/-- Claim C6 (amended): the canonical document's metadata field is
always present as a mapping, never missing or null: the `Providers`
Mistral adapter always attaches the empty mapping, and the `main.py`
variant attaches the response's `metadata` sub-mapping when the key is
present and the empty mapping otherwise. -/
theorem c6_metadata_always_mapping (resp : OcrResponse) (dm : RecognizedDocument)
    (hr : HttpResponse) (dh : RecognizedDocument)
    (h1 : mistralParse resp = Except.ok dm)
    (h2 : process_document hr = Except.ok dh) :
    dm.metadata = Json.obj [] ∧
    dh.metadata = (lookupKey "metadata" hr.body).getD (Json.obj []) := by
  refine ⟨(mistralParse_ok_parts resp dm h1).2.1, ?_⟩
  unfold process_document at h2
  by_cases hs : hr.status ≠ 200
  · rw [if_pos hs] at h2
    exact absurd h2 (by simp)
  · rw [if_neg hs] at h2
    rcases hi : process_image_response hr.body with _ | imgs
    · rw [hi] at h2
      exact absurd h2 (by simp)
    · rw [hi] at h2
      injection h2 with h2
      rw [← h2]
      rfl

/-- Witness for C6: a parse with no metadata notion and a 200 response
with a `metadata` key. -/
theorem c6_metadata_always_mapping_witness :
    (⟨"m", [], Json.obj []⟩ : RecognizedDocument).metadata = Json.obj [] ∧
    (⟨"T", [], Json.obj [("a", Json.num 1)]⟩ : RecognizedDocument).metadata
      = (lookupKey "metadata"
          [("metadata", Json.obj [("a", Json.num 1)]), ("text", Json.str "T")]).getD
          (Json.obj []) :=
  c6_metadata_always_mapping ⟨[⟨0, "m", []⟩]⟩ ⟨"m", [], Json.obj []⟩
    ⟨200, [("metadata", Json.obj [("a", Json.num 1)]), ("text", Json.str "T")], ""⟩
    ⟨"T", [], Json.obj [("a", Json.num 1)]⟩ rfl rfl

/-! ### Claim about remote image fetching (C7) -/

/-- Claim C7, counterexample: a 200-status response whose body
references exactly one image, by remote URL only (no inline `base64`).
No fetch is performed and no fetch failure occurs, yet the image is
unconditionally omitted: the resulting document has an empty images
mapping — contradicting the claim that URL-referenced images are
fetched and omitted only when the fetch returns a non-success status. -/
theorem c7_counterexample :
    process_document ⟨200,
        [("pages", Json.arr [Json.obj [("text", Json.str "T")]]),
         ("images", Json.arr [Json.obj [("url", Json.str "http://x/im.png")]])], ""⟩
      = Except.ok ⟨"T", [], Json.obj []⟩ ∧
    lookupKey "images"
        [("pages", Json.arr [Json.obj [("text", Json.str "T")]]),
         ("images", Json.arr [Json.obj [("url", Json.str "http://x/im.png")]])]
      = some (Json.arr [Json.obj [("url", Json.str "http://x/im.png")]]) :=
  ⟨rfl, rfl⟩

/-- Claim C7 (amended): there is no per-image remote fetch in the code.
The only HTTP status the adapter inspects is the document-level OCR
request's: a non-success status raises and aborts the whole document.
In the image walk, an entry without an inline `base64` payload (for
example one referencing its image by URL) is skipped unconditionally
while the counter still advances, and the rest of the document is
produced from the remaining entries. -/
theorem c7_no_per_image_fetch (hr : HttpResponse) (i : Nat)
    (acc : List (String × List Nat)) (f : List (String × Json)) (rest : List Json)
    (hs : hr.status ≠ 200)
    (hnob64 : lookupKey "base64" f = none) :
    process_document hr = Except.error
      ("Mistral OCR API error: " ++ natRepr hr.status ++ " - " ++ hr.errText) ∧
    imgLoop i acc (Json.obj f :: rest) = imgLoop (i + 1) acc rest := by
  constructor
  · unfold process_document
    rw [if_pos hs]
  · simp only [imgLoop, hnob64]

/-- Witness for C7: a 404 on the OCR request and a URL-only image
entry. -/
theorem c7_no_per_image_fetch_witness :
    process_document ⟨404, [], "Not Found"⟩ = Except.error
      ("Mistral OCR API error: " ++ natRepr 404 ++ " - " ++ "Not Found") ∧
    imgLoop 0 [] [Json.obj [("url", Json.str "http://x/im.png")]] = imgLoop (0 + 1) [] [] :=
  c7_no_per_image_fetch ⟨404, [], "Not Found"⟩ 0 [] [("url", Json.str "http://x/im.png")] []
    (by decide) rfl

/-! ### Claim about save_images (C10) -/

/-- Claim C10 (confirmed): `save_images` writes each image under the
sanitized filename `safe_name` (every character outside alphanumerics
and `"._- "` replaced by `'_'`) in the output directory and returns a
mapping from each original, unsanitized name to its written path; when
two distinct original names sanitize to the same safe name, the later
write overwrites the earlier file and both originals map to the same
path. -/
theorem c10_save_images_mapping (doc : RecognizedDocument) (out : List String)
    (hnd : (doc.image_bytes_by_name.map Prod.fst).Nodup)
    (n1 n2 : String) (b1 b2 : List Nat)
    (hne : n1 ≠ n2) (hcol : safe_name n1 = safe_name n2) :
    (save_images doc out).1
      = doc.image_bytes_by_name.map (fun q => (out ++ [safe_name q.1], q.2)) ∧
    (save_images doc out).2
      = doc.image_bytes_by_name.map (fun q => (q.1, out ++ [safe_name q.1])) ∧
    lastWrite (save_images ⟨"", [(n1, b1), (n2, b2)], Json.obj []⟩ out).1
      (out ++ [safe_name n1]) = some b2 ∧
    (save_images ⟨"", [(n1, b1), (n2, b2)], Json.obj []⟩ out).2
      = [(n1, out ++ [safe_name n1]), (n2, out ++ [safe_name n1])] := by
  have hgen := save_images_foldl doc.image_bytes_by_name out [] [] hnd
    (by intro p _ q hq; simp at hq)
  have hcoll := save_images_foldl [(n1, b1), (n2, b2)] out [] []
    (by simp [hne]) (by intro p _ q hq; simp at hq)
  refine ⟨?_, ?_, ?_, ?_⟩
  · unfold save_images
    rw [hgen]
    simp
  · unfold save_images
    rw [hgen]
    simp
  · unfold save_images
    rw [hcoll]
    simp only [List.nil_append, List.map_cons, List.map_nil]
    rw [← hcol]
    have h0 : lastWrite ([] : List (List String × List Nat)) (out ++ [safe_name n1]) = none :=
      rfl
    have h1 := lastWrite_cons_of_none (out ++ [safe_name n1], b2) [] _ h0
    simp only [beq_self_eq_true, if_true] at h1
    exact lastWrite_cons_of_some _ _ _ _ h1
  · unfold save_images
    rw [hcoll]
    simp only [List.nil_append, List.map_cons, List.map_nil]
    rw [← hcol]

/-- Witness for C10: the distinct names `"a/b"` and `"a:b"` both
sanitize to `"a_b"`; the second image's bytes win and both originals
map to the same path. -/
theorem c10_save_images_mapping_witness :
    (save_images ⟨"", [("a/b", [1]), ("a:b", [2])], Json.obj []⟩ ["imgs"]).1
      = ([("a/b", [1]), ("a:b", [2])] : List (String × List Nat)).map
          (fun q => (["imgs"] ++ [safe_name q.1], q.2)) ∧
    (save_images ⟨"", [("a/b", [1]), ("a:b", [2])], Json.obj []⟩ ["imgs"]).2
      = ([("a/b", [1]), ("a:b", [2])] : List (String × List Nat)).map
          (fun q => (q.1, ["imgs"] ++ [safe_name q.1])) ∧
    lastWrite (save_images ⟨"", [("a/b", [1]), ("a:b", [2])], Json.obj []⟩ ["imgs"]).1
      (["imgs"] ++ [safe_name "a/b"]) = some [2] ∧
    (save_images ⟨"", [("a/b", [1]), ("a:b", [2])], Json.obj []⟩ ["imgs"]).2
      = [("a/b", ["imgs"] ++ [safe_name "a/b"]), ("a:b", ["imgs"] ++ [safe_name "a/b"])] :=
  c10_save_images_mapping ⟨"", [("a/b", [1]), ("a:b", [2])], Json.obj []⟩ ["imgs"]
    (by decide) "a/b" "a:b" [1] [2] (by decide) (by decide)
